import Mathlib

/-!
Verification of the employee-attrition pipeline (data loader, GRU trainer,
threshold optimizer) against its natural-language specification.

The JavaScript source is shallowly embedded: JS numbers are modelled as `ℚ`
(with the floating-point threshold-scan loop of `#autoThreshold` modelled
bit-exactly via rationals that are IEEE-754 doubles), JS strings as `String`
processed through explicit character-list helpers mirroring `split`, `trim`
and `replace`, and `Math.random`-driven Gaussian draws as an explicit noise
stream parameter.  Fallible loading returns `Except`.
-/

namespace Attrition

/-! ### String helpers (models of the JS string operations used by the loader) -/

/-- Model of `text.replace(/\r\n/g,'\n').replace(/\r/g,'\n')`: one pass that
maps each `"\r\n"` pair and each remaining `'\r'` to `'\n'`. -/
def normalizeNewlines : List Char → List Char
  | [] => []
  | '\r' :: '\n' :: rest => '\n' :: normalizeNewlines rest
  | '\r' :: rest => '\n' :: normalizeNewlines rest
  | c :: rest => c :: normalizeNewlines rest

/-- Model of JS `String.prototype.split(sep)` for a single-character
separator: `"a,,b".split(',') = ["a","","b"]` and `"".split(',') = [""]`. -/
def splitChar (sep : Char) : List Char → List (List Char)
  | [] => [[]]
  | c :: rest =>
    let r := splitChar sep rest
    if c = sep then [] :: r
    else
      match r with
      | [] => [[c]]
      | h :: t => (c :: h) :: t

/-- Model of JS `String.prototype.trim()`. -/
def jsTrim (s : String) : String :=
  ⟨((s.data.dropWhile Char.isWhitespace).reverse.dropWhile Char.isWhitespace).reverse⟩

/-! ### Model of JS `Number(string)` coercion

Simplified decimal model: optional sign, integer digits, optional fractional
digits.  `Number('') = 0`; a non-numeric string yields `none` (JS `NaN`).
Each use site states how the source handles the `NaN` case. -/

def digitsVal (cs : List Char) : Option Nat :=
  cs.foldl
    (fun acc c =>
      match acc with
      | none => none
      | some n => if c.isDigit then some (n * 10 + (c.toNat - 48)) else none)
    (some 0)

def parseDigits (intPart fracPart : List Char) : Option ℚ :=
  if intPart = [] ∧ fracPart = [] then none
  else
    match digitsVal intPart, digitsVal fracPart with
    | some i, some f => some ((i : ℚ) + (f : ℚ) / (10 : ℚ) ^ fracPart.length)
    | _, _ => none

def parseNumQ (s : String) : Option ℚ :=
  let t := (jsTrim s).data
  if t = [] then some 0
  else
    let (sign, body) : ℚ × List Char :=
      match t with
      | '-' :: rest => (-1, rest)
      | '+' :: rest => (1, rest)
      | cs => (1, cs)
    let intPart := body.takeWhile (fun c => c ≠ '.')
    match body.dropWhile (fun c => c ≠ '.') with
    | [] => (parseDigits intPart []).map (sign * ·)
    | _ :: frac =>
      if frac.any (fun c => c = '.') then none
      else (parseDigits intPart frac).map (sign * ·)

/-- `Number(r[col] ?? 0)` followed by `Number.isFinite(v) ? v : 0`:
a missing key gives `0`, a non-numeric value (`NaN`) gives `0`. -/
def jsNumOr0 (o : Option String) : ℚ :=
  match o with
  | none => 0
  | some s => (parseNumQ s).getD 0

/-! ### Rows and CSV parsing (`#parseCSV`, `fromFile` of data-loader.js) -/

/-- A parsed record: attribute name to raw string value, in header order. -/
abbrev Row : Type := List (String × String)

/-- JS object property lookup (`r[k]`): the last assignment wins. -/
def rowGet (r : Row) (k : String) : Option String :=
  (List.reverse r).find? (fun p => decide (p.1 = k)) |>.map Prod.snd

def labelKey : String := "Attrition"

/-- Non-empty lines of the normalized text
(`text.replace(...).split('\n').filter(Boolean)`). -/
def csvLines (text : String) : List String :=
  ((splitChar '\n' (normalizeNewlines text.data)).map
    (fun cs => (⟨cs⟩ : String))).filter (fun l => decide (l ≠ ""))

/-- Header names of the first line, trimmed. -/
def headersOf (text : String) : List String :=
  match csvLines text with
  | [] => []
  | h :: _ => (splitChar ',' h.data).map (fun cs => jsTrim ⟨cs⟩)

/-- One data line: skipped (`none`) when its field count differs from the
header's field count, else the trimmed fields zipped with the headers. -/
def parseLine (headers : List String) (line : String) : Option Row :=
  let parts := splitChar ',' line.data
  if parts.length = headers.length then
    some (List.zip headers (parts.map (fun cs => jsTrim ⟨cs⟩)))
  else none

/-- `#parseCSV`: throws `'CSV has no data.'` when fewer than two non-empty
lines exist; otherwise parses the header and keeps the well-formed rows. -/
def parseCSV (text : String) : Except String (List String × List Row) :=
  match csvLines text with
  | [] => .error "CSV has no data."
  | [_] => .error "CSV has no data."
  | h :: rest =>
    let headers := (splitChar ',' h.data).map (fun cs => jsTrim ⟨cs⟩)
    .ok (headers, rest.filterMap (parseLine headers))

/-! ### Loader attribute lists (constructor of `DataLoader`) -/

def baseNum : List String :=
  ["Age", "DailyRate", "DistanceFromHome", "Education",
   "EnvironmentSatisfaction", "HourlyRate", "JobInvolvement", "JobLevel",
   "JobSatisfaction", "MonthlyIncome", "MonthlyRate", "NumCompaniesWorked",
   "PercentSalaryHike", "PerformanceRating", "RelationshipSatisfaction",
   "StockOptionLevel", "TotalWorkingYears", "TrainingTimesLastYear",
   "WorkLifeBalance", "YearsAtCompany", "YearsInCurrentRole",
   "YearsSinceLastPromotion", "YearsWithCurrManager"]

def droppedCols : List String :=
  ["EmployeeNumber", "EmployeeCount", "StandardHours", "Over18"]

def catKnown : List String :=
  ["BusinessTravel", "Department", "EducationField", "Gender", "JobRole",
   "MaritalStatus", "OverTime"]

def metaFields : List String :=
  ["EmployeeNumber", "JobRole", "OverTime", "YearsAtCompany", "MonthlyIncome"]

def engineeredNames : List String :=
  ["TenureRatio", "NoPromotionRatio", "IncomePerLevel", "OvertimeStress",
   "TravelFreq", "IsSingle", "LongDistance"]

/-- `headers.filter(h => this.catKnown.includes(h))`. -/
def catColsOf (headers : List String) : List String :=
  headers.filter (fun h => decide (h ∈ catKnown))

/-- `for (const k of headers) if (allowed.has(k)) obj[k] = r[k]`. -/
def filterRow (headers allowed : List String) (r : Row) : Row :=
  headers.filterMap (fun k =>
    if k ∈ allowed then (rowGet r k).map (fun v => (k, v)) else none)

structure LoadedData where
  headers : List String
  catCols : List String
  raw : List Row

/-- `fromFile` (minus the excluded `FileReader` transport): parse, then fail
when the label column is absent, else keep only allow-listed attributes. -/
def fromFile (text : String) : Except String LoadedData :=
  match parseCSV text with
  | .error e => .error e
  | .ok (headers, rows) =>
    if labelKey ∈ headers then
      .ok { headers := headers
            catCols := catColsOf headers
            raw := rows.map
              (filterRow headers
                (baseNum ++ catColsOf headers ++ [labelKey] ++ metaFields ++ droppedCols)) }
    else .error ("Missing required column: " ++ labelKey)

/-! ### Categorical encoders (`#fitCategoricals`) -/

/-- The raw values of column `c` over `rows`, with a missing value read as
`''` (`r[c] ?? ''`). -/
def colValues (rows : List Row) (c : String) : List String :=
  rows.map (fun r => (rowGet r c).getD "")

/-- `#fitCategoricals` for one column: the distinct observed values, sorted
(`Array.from(set.values()).sort()`); a value's encoder index is its position
in this list. -/
def encoderFor (rows : List Row) (c : String) : List String :=
  (colValues rows c).dedup.mergeSort (fun a b => decide (a ≤ b))

/-- One-hot expansion: a zero vector of the block size with a `1` written at
the encoder index of `v` when `v` is a known value
(`if (Number.isInteger(idx)) vec[idx] = 1`). -/
def oneHotBlock (enc : List String) (v : String) : List ℚ :=
  match enc.indexOf? v with
  | some i => (List.replicate enc.length (0 : ℚ)).set i 1
  | none => List.replicate enc.length (0 : ℚ)

/-! ### Row featurization (`#rowToFeatures`) -/

/-- `String(r[k] ?? '')`. -/
def strField (r : Row) (k : String) : String := (rowGet r k).getD ""

/-- The seven engineered numeric features, in source order.  The source has
no `isFinite` guard here, so a non-numeric field would propagate JS `NaN`;
the `ℚ` model reads such a field as `0` (no claim depends on the value). -/
def engineeredFeatures (r : Row) : List ℚ :=
  let ya := max 1 (jsNumOr0 (rowGet r "YearsAtCompany"))
  let tw := max 1 (jsNumOr0 (rowGet r "TotalWorkingYears"))
  let yp := jsNumOr0 (rowGet r "YearsSinceLastPromotion")
  let jl := max 1 (match rowGet r "JobLevel" with
                   | none => 1
                   | some s => (parseNumQ s).getD 0)
  let mi := jsNumOr0 (rowGet r "MonthlyIncome")
  let js := jsNumOr0 (rowGet r "JobSatisfaction")
  let df := jsNumOr0 (rowGet r "DistanceFromHome")
  let ot : ℚ := if strField r "OverTime" = "Yes" then 1 else 0
  [jsNumOr0 (rowGet r "YearsAtCompany") / tw,
   yp / ya,
   mi / jl,
   ot * (4 - js),
   if strField r "BusinessTravel" = "Travel_Frequently" then 1 else 0,
   if strField r "MaritalStatus" = "Single" then 1 else 0,
   if df > 20 then 1 else 0]

/-- Label mapping: `this.attritionMap[String(r[labelKey] || 'No')] ?? 0`
(`''` is falsy, so a missing or empty label reads as `'No'`). -/
def labelOf (r : Row) : ℚ :=
  let s := match rowGet r labelKey with
           | none => "No"
           | some v => if v = "" then "No" else v
  if s = "Yes" then 1 else 0

/-- `#rowToFeatures`: base numerics, then engineered features, then the
one-hot blocks of the fitted categorical encoders. -/
def rowToFeatures (rows : List Row) (catCols : List String) (r : Row) : List ℚ :=
  baseNum.map (fun col => jsNumOr0 (rowGet r col))
    ++ engineeredFeatures r
    ++ (catCols.map (fun c => oneHotBlock (encoderFor rows c) ((rowGet r c).getD ""))).flatten

/-- The recorded `featureOrder` list: base numerics, engineered names, then
`` `${c}__${v}` `` for each encoder value of each categorical column. -/
def featureOrderOf (rows : List Row) (catCols : List String) : List String :=
  baseNum ++ engineeredNames
    ++ (catCols.map (fun c =>
          (encoderFor rows c).map (fun v => c ++ "__" ++ v))).flatten

/-! ### Seeded shuffle (the stratified split's LCG Fisher-Yates) -/

/-- `seed = (seed*1664525 + 1013904223) % 2**32`. -/
def lcg (s : Nat) : Nat := (s * 1664525 + 1013904223) % 4294967296

/-- Swap of two positions of a list (the destructuring swap
`[arr[i],arr[j]] = [arr[j],arr[i]]`). -/
def swapL {α : Type} (l : List α) (i j : Nat) : List α :=
  match l.get? i, l.get? j with
  | some a, some b => (l.set i b).set j a
  | _, _ => l

/-- The Fisher-Yates loop body for indices `m, m-1, ..., 1`.  At index `m`
the draw is `Math.floor(rand()*(m+1)) = seed'*(m+1) / 2**32`, exact for the
list lengths in scope, with `seed' = lcg seed`. -/
def fyAux {α : Type} : List α → Nat → Nat → List α
  | l, _, 0 => l
  | l, seed, m + 1 =>
    let s := lcg seed
    fyAux (swapL l (m + 1) (s * (m + 2) / 4294967296)) s m

/-- The `shuffle` closure of `prepareTensors`: a fresh LCG seeded with the
constant `1337` on every call. -/
def shuffle {α : Type} (l : List α) : List α := fyAux l 1337 (l.length - 1)

/-! ### Stratified split (`prepareTensors`, lines 144-159) -/

def jsRound (x : ℚ) : ℤ := ⌊x + 1 / 2⌋

def clampQ (x lo hi : ℚ) : ℚ := min (max x lo) hi

/-- `posIdx`: indices whose label is `1`. -/
def posIdxOf (labels : List ℚ) : List Nat :=
  (List.range labels.length).filter (fun i => decide (labels.getD i 0 = 1))

/-- `negIdx`: the remaining indices. -/
def negIdxOf (labels : List ℚ) : List Nat :=
  (List.range labels.length).filter (fun i => !decide (labels.getD i 0 = 1))

/-- `nTest = Math.max(1, Math.floor(feats.length * clamp(testSplit,.05,.9)))`. -/
def nTestOf (n : Nat) (testSplit : ℚ) : Nat :=
  max 1 (⌊(n : ℚ) * clampQ testSplit (1 / 20) (9 / 10)⌋.toNat)

/-- `testPos = Math.max(0, Math.min(Math.round(nTest * (pos / Math.max(1, n))), pos))`. -/
def testPosOf (n npos : Nat) (testSplit : ℚ) : Nat :=
  (max 0 (min (jsRound ((nTestOf n testSplit : ℚ) * ((npos : ℚ) / (max 1 n : ℚ))))
              (npos : ℤ))).toNat

/-- `testNeg = Math.min(nTest - testPos, neg)`. -/
def testNegOf (n npos nneg : Nat) (testSplit : ℚ) : Nat :=
  (min ((nTestOf n testSplit : ℤ) - (testPosOf n npos testSplit : ℤ)) (nneg : ℤ)).toNat

structure SplitResult where
  posIdx : List Nat
  negIdx : List Nat
  nTest : Nat
  testPos : Nat
  testNeg : Nat
  testIdx : List Nat
  trainIdx : List Nat
  deriving DecidableEq

/-- The stratified split: bucket by label, shuffle each bucket with the
seeded generator, then slice the shuffled buckets. -/
def splitIndices (labels : List ℚ) (testSplit : ℚ) : SplitResult :=
  let pos := posIdxOf labels
  let neg := negIdxOf labels
  let posS := shuffle pos
  let negS := shuffle neg
  let tp := testPosOf labels.length pos.length testSplit
  let tn := testNegOf labels.length pos.length neg.length testSplit
  { posIdx := pos
    negIdx := neg
    nTest := nTestOf labels.length testSplit
    testPos := tp
    testNeg := tn
    testIdx := posS.take tp ++ negS.take tn
    trainIdx := posS.drop tp ++ negS.drop tn }

/-! ### Scaler (`#fitScaler`, `#applyScaler`) -/

/-- Fixed-iteration Newton model of `Math.sqrt` (every claim proved below is
independent of the approximation; only determinism of the value matters). -/
def sqrtIter (x : ℚ) : Nat → ℚ → ℚ
  | 0, g => g
  | n + 1, g => sqrtIter x n ((g + x / g) / 2)

def ratSqrt (x : ℚ) : ℚ := if x ≤ 0 then 0 else sqrtIter x 8 (max 1 x)

structure Scaler where
  mean : List ℚ
  varF : List ℚ
  deriving DecidableEq

/-- `#fitScaler`: per column, population mean and the variance floored at
`1e-9` (the source stores `std = Math.sqrt(varF)`). -/
def fitScaler (x : List (List ℚ)) : Scaler :=
  let d := (x.headD []).length
  let n : ℚ := max 1 (x.length : ℚ)
  { mean := (List.range d).map (fun j => (x.map (fun row => row.getD j 0)).sum / n)
    varF := (List.range d).map (fun j =>
      let m := (x.map (fun row => row.getD j 0)).sum / n
      max (1 / 1000000000) ((x.map (fun row => row.getD j 0 * row.getD j 0)).sum / n - m * m)) }

/-- `#applyScaler`: `(v - mean[j]) / std[j]` elementwise. -/
def applyScaler (sc : Scaler) (x : List (List ℚ)) : List (List ℚ) :=
  x.map (fun row => row.mapIdx (fun j v => (v - sc.mean.getD j 0) / ratSqrt (sc.varF.getD j 0)))

/-! ### Minority-class augmenter (`#augmentPositivesOnScaled`) -/

/-- Count of training rows with label `1` (`ytr[i][0] === 1`). -/
def posIdxY (ytr : List (List ℚ)) : List Nat :=
  (List.range ytr.length).filter (fun i => decide ((ytr.getD i []).getD 0 0 = 1))

def negIdxY (ytr : List (List ℚ)) : List Nat :=
  (List.range ytr.length).filter (fun i => !decide ((ytr.getD i []).getD 0 0 = 1))

/-- `wantPos = Math.floor((targetRatio * N) / (1 - targetRatio))`. -/
def wantPosOf (targetRatio : ℚ) (nneg : Nat) : ℤ :=
  ⌊(targetRatio * (nneg : ℚ)) / (1 - targetRatio)⌋

/-- `#augmentPositivesOnScaled`.  The Box-Muller `gauss()` draws are modelled
by the explicit stream `noise` (synthetic row `k` perturbs dimension `d` by
`noise (k*numDim + d) * noiseStd`). -/
def augmentPositivesOnScaled (xtr ytr : List (List ℚ)) (numDim : Nat)
    (targetRatio noiseStd : ℚ) (noise : Nat → ℚ) :
    List (List ℚ) × List (List ℚ) :=
  let posIdx := posIdxY ytr
  let p := posIdx.length
  if p = 0 then (xtr, ytr)
  else
    let need : Nat := (max 0 (wantPosOf targetRatio (negIdxY ytr).length - (p : ℤ))).toNat
    if need = 0 then (xtr, ytr)
    else
      (xtr ++ (List.range need).map (fun k =>
          (xtr.getD (posIdx.getD (k % p) 0) []).mapIdx (fun d v =>
            if d < numDim then v + noise (k * numDim + d) * noiseStd else v)),
       ytr ++ (List.range need).map (fun _ => [(1 : ℚ)]))

/-! ### `prepareTensors` -/

structure AugConfig where
  enable : Bool
  targetRatio : ℚ
  noiseStd : ℚ

structure PrepResult where
  featureOrder : List String
  split : SplitResult
  scaler : Scaler
  xTrain : List (List ℚ)
  yTrain : List (List ℚ)
  xTest : List (List ℚ)
  yTest : List (List ℚ)

/-- `Number(cfg.targetRatio) || 0.5` then clamp to `[0.2, 0.8]` (`0` is
falsy, hence replaced by the default). -/
def augTargetRatio (cfg : AugConfig) : ℚ :=
  clampQ (if cfg.targetRatio = 0 then 1 / 2 else cfg.targetRatio) (1 / 5) (4 / 5)

/-- `Number(cfg.noiseStd) || 0.05` then clamp to `[0, 0.2]`. -/
def augNoiseStd (cfg : AugConfig) : ℚ :=
  clampQ (if cfg.noiseStd = 0 then 1 / 20 else cfg.noiseStd) 0 (1 / 5)

/-- `prepareTensors`: featurize, stratified split, fit/apply the scaler on
the train partition, then optional augmentation of the scaled train rows. -/
def prepareTensors (d : LoadedData) (testSplit : ℚ) (aug : AugConfig)
    (noise : Nat → ℚ) : PrepResult :=
  let feats := d.raw.map (rowToFeatures d.raw d.catCols)
  let labels := d.raw.map labelOf
  let s := splitIndices labels testSplit
  let xtr := s.trainIdx.map (fun i => feats.getD i [])
  let ytr := s.trainIdx.map (fun i => [labels.getD i 0])
  let xte := s.testIdx.map (fun i => feats.getD i [])
  let yte := s.testIdx.map (fun i => [labels.getD i 0])
  let sc := fitScaler xtr
  let xtrS := applyScaler sc xtr
  let fin :=
    if aug.enable then
      augmentPositivesOnScaled xtrS ytr (baseNum.length + engineeredNames.length)
        (augTargetRatio aug) (augNoiseStd aug) noise
    else (xtrS, ytr)
  { featureOrder := featureOrderOf d.raw d.catCols
    split := s
    scaler := sc
    xTrain := fin.1
    yTrain := fin.2
    xTest := applyScaler sc xte
    yTest := yte }

/-! ### GRU training loop with early stopping (`gru.js`, `fit`)

The per-epoch losses produced by `tf` are an oracle: `data` lists the
`(loss, val_loss)` pair each epoch would report, its length being the epoch
budget (`validationSplit` is clamped to `[0.05, 0.4] > 0`, so `val_loss` is
always produced; the model takes it finite).  `improved` is a ghost trace
recording, per executed epoch, whether `VL + 1e-6 < best` held. -/

def epsImp : ℚ := 1 / 1000000

structure FitHist where
  loss : List ℚ
  valLoss : List ℚ
  improved : List Bool

/-- `VL + 1e-6 < best`, with `best` initially `+Infinity` (`none`). -/
def improves (vl : ℚ) (best : Option ℚ) : Bool :=
  match best with
  | none => true
  | some b => decide (vl + epsImp < b)

/-- The `onEpochEnd` bookkeeping: push the losses, update `best`/`bad`, and
set `stopTraining` once `bad >= Math.max(2, patience)` (no further epoch
runs after that). -/
def fitLoop (patience : Nat) : List (ℚ × ℚ) → Option ℚ → Nat → FitHist
  | [], _, _ => { loss := [], valLoss := [], improved := [] }
  | (l, vl) :: rest, best, bad =>
    if improves vl best then
      let h := fitLoop patience rest (some vl) 0
      { loss := l :: h.loss, valLoss := vl :: h.valLoss, improved := true :: h.improved }
    else if max 2 patience ≤ bad + 1 then
      { loss := [l], valLoss := [vl], improved := [false] }
    else
      let h := fitLoop patience rest best (bad + 1)
      { loss := l :: h.loss, valLoss := vl :: h.valLoss, improved := false :: h.improved }

/-- `fit`: `best = Infinity, bad = 0` at entry. -/
def fitHistory (patience : Nat) (data : List (ℚ × ℚ)) : FitHist :=
  fitLoop patience data none 0

/-! ### Threshold optimizer (`app.js`, `#autoThreshold`)

The scan variable is a JS double; `roundDouble` rounds an exact rational to
the nearest IEEE-754 binary64 value (round-half-even), which is exact for
the magnitudes reached by the loop, so the candidate list below is bit-exact
for `for (let t = 0.10; t <= 0.90; t += 0.01)`. -/

/-- Smallest `e` (within fuel) with `2^52 ≤ x * 2^e`. -/
def expSearch (x : ℚ) : Nat → Nat → Nat
  | 0, e => e
  | fuel + 1, e =>
    if (4503599627370496 : ℚ) ≤ x * 2 ^ e then e else expSearch x fuel (e + 1)

/-- Round-half-even to an integer. -/
def roundHalfEven (q : ℚ) : ℤ :=
  let f := ⌊q⌋
  if q - f < 1 / 2 then f
  else if (1 : ℚ) / 2 < q - f then f + 1
  else if f % 2 = 0 then f else f + 1

/-- Round a positive rational below `2^52` to the nearest binary64 value. -/
def roundDouble (x : ℚ) : ℚ :=
  if x ≤ 0 then 0
  else
    let e := expSearch x 100 0
    (roundHalfEven (x * 2 ^ e) : ℚ) / 2 ^ e

/-- The binary64 value of the literal `0.10`. -/
def dLit010 : ℚ := 3602879701896397 / 36028797018963968

/-- The binary64 value of the literal `0.01`. -/
def dLit001 : ℚ := 5764607523034235 / 576460752303423488

/-- The binary64 value of the literal `0.90` (slightly above `9/10`). -/
def dLit090 : ℚ := 8106479329266893 / 9007199254740992

/-- The scan loop: collect `t` while `t <= 0.90`, stepping by the rounded
sum `t + 0.01`. -/
def scanThresholds : Nat → ℚ → List ℚ
  | 0, _ => []
  | fuel + 1, t =>
    if t ≤ dLit090 then t :: scanThresholds fuel (roundDouble (t + dLit001))
    else []

/-- The candidate thresholds actually visited by `#autoThreshold`. -/
def thresholdCandidates : List ℚ := scanThresholds 200 dLit010

/-- `+t.toFixed(2)` for the magnitudes in scope. -/
def toFixed2 (x : ℚ) : ℚ := (⌊x * 100 + 1 / 2⌋ : ℚ) / 100

/-- True positives at threshold `t`: `pred = p[i] >= t ? 1 : 0`, counted
where `pred === 1 && gt === 1`. -/
def tpOf (p y : List ℚ) (t : ℚ) : Nat :=
  ((p.zip y).filter (fun pr => decide (t ≤ pr.1) && decide (pr.2 = 1))).length

def fpOf (p y : List ℚ) (t : ℚ) : Nat :=
  ((p.zip y).filter (fun pr => decide (t ≤ pr.1) && decide (pr.2 = 0))).length

def fnOf (p y : List ℚ) (t : ℚ) : Nat :=
  ((p.zip y).filter (fun pr => !decide (t ≤ pr.1) && decide (pr.2 = 1))).length

/-- `prec = tp / Math.max(1, tp+fp)`. -/
def precOf (p y : List ℚ) (t : ℚ) : ℚ :=
  (tpOf p y t : ℚ) / (max 1 (tpOf p y t + fpOf p y t) : ℚ)

/-- `rec = tp / Math.max(1, tp+fn)`. -/
def recOf (p y : List ℚ) (t : ℚ) : ℚ :=
  (tpOf p y t : ℚ) / (max 1 (tpOf p y t + fnOf p y t) : ℚ)

/-- `f1 = 2*prec*rec / Math.max(1e-9, prec+rec)`. -/
def f1Of (p y : List ℚ) (t : ℚ) : ℚ :=
  2 * precOf p y t * recOf p y t / max (1 / 1000000000) (precOf p y t + recOf p y t)

structure ThrBest where
  thr : ℚ
  f1 : ℚ
  deriving DecidableEq

/-- The scan's accumulator step: keep the candidate only on strictly greater
F1 (`if (f1 > best.f1) best = { thr: +t.toFixed(2), f1 }`). -/
def bestStep (p y : List ℚ) (best : ThrBest) (t : ℚ) : ThrBest :=
  if best.f1 < f1Of p y t then { thr := toFixed2 t, f1 := f1Of p y t } else best

/-- `#autoThreshold`: scan the candidates starting from `{thr: 0.5, f1: 0}`. -/
def bestThreshold (p y : List ℚ) : ThrBest :=
  thresholdCandidates.foldl (bestStep p y) { thr := 1 / 2, f1 := 0 }

/-! ### Permutation facts about the seeded Fisher-Yates shuffle -/

theorem set_cons_perm {α : Type} (x b : α) :
    ∀ (xs : List α) (m : Nat), xs.get? m = some b → (b :: xs.set m x).Perm (x :: xs) := by
  intro xs
  induction xs with
  | nil => intro m h; simp at h
  | cons y t ih =>
    intro m h
    cases m with
    | zero =>
      simp only [List.get?_cons_zero, Option.some.injEq] at h
      subst h
      simpa using List.Perm.swap x y t
    | succ m =>
      simp only [List.get?_cons_succ] at h
      have hih := ih m h
      simp only [List.set_cons_succ]
      exact (List.Perm.swap y b (t.set m x)).trans
        ((hih.cons y).trans (List.Perm.swap x y t))

theorem set_set_perm {α : Type} :
    ∀ (l : List α) (i j : Nat) (a b : α),
      l.get? i = some a → l.get? j = some b → ((l.set i b).set j a).Perm l := by
  intro l
  induction l with
  | nil => intro i j a b h1 _; simp at h1
  | cons x xs ih =>
    intro i j a b h1 h2
    cases i with
    | zero =>
      simp only [List.get?_cons_zero, Option.some.injEq] at h1
      subst h1
      cases j with
      | zero => simp
      | succ m =>
        simp only [List.get?_cons_succ] at h2
        simpa using set_cons_perm x b xs m h2
    | succ n =>
      simp only [List.get?_cons_succ] at h1
      cases j with
      | zero =>
        simp only [List.get?_cons_zero, Option.some.injEq] at h2
        subst h2
        simpa using set_cons_perm x a xs n h1
      | succ m =>
        simp only [List.set_cons_succ]
        exact List.Perm.cons x (ih n m a b h1 h2)

theorem swapL_perm {α : Type} (l : List α) (i j : Nat) : (swapL l i j).Perm l := by
  unfold swapL
  cases h1 : l.get? i with
  | none => exact List.Perm.refl l
  | some a =>
    cases h2 : l.get? j with
    | none => exact List.Perm.refl l
    | some b => exact set_set_perm l i j a b h1 h2

theorem fyAux_perm {α : Type} :
    ∀ (m : Nat) (l : List α) (seed : Nat), (fyAux l seed m).Perm l := by
  intro m
  induction m with
  | zero => intro l seed; exact List.Perm.refl l
  | succ m ih =>
    intro l seed
    exact (ih _ _).trans (swapL_perm l (m + 1) _)

theorem shuffle_perm {α : Type} (l : List α) : (shuffle l).Perm l :=
  fyAux_perm _ l 1337

/-! ### The split is a partition of the row indices -/

theorem perm_middle_rearrange {α : Type} (a b c d : List α) :
    ((a ++ c) ++ (b ++ d)).Perm ((a ++ b) ++ (c ++ d)) := by
  simp only [List.append_assoc]
  exact List.Perm.append_left a
    ((List.perm_append_comm_assoc c b d).trans (List.Perm.refl _))

theorem count_range_if (n i : Nat) : (List.range n).count i = if i < n then 1 else 0 := by
  by_cases h : i < n
  · rw [if_pos h]
    exact List.count_eq_one_of_mem (List.nodup_range n) (List.mem_range.2 h)
  · rw [if_neg h]
    exact List.count_eq_zero_of_not_mem (fun hm => h (List.mem_range.1 hm))

theorem testIdx_trainIdx_perm (labels : List ℚ) (testSplit : ℚ) :
    ((splitIndices labels testSplit).testIdx ++ (splitIndices labels testSplit).trainIdx).Perm
      (List.range labels.length) := by
  simp only [splitIndices]
  have h1 := perm_middle_rearrange
    ((shuffle (posIdxOf labels)).take (testPosOf labels.length (posIdxOf labels).length testSplit))
    ((shuffle (posIdxOf labels)).drop (testPosOf labels.length (posIdxOf labels).length testSplit))
    ((shuffle (negIdxOf labels)).take
      (testNegOf labels.length (posIdxOf labels).length (negIdxOf labels).length testSplit))
    ((shuffle (negIdxOf labels)).drop
      (testNegOf labels.length (posIdxOf labels).length (negIdxOf labels).length testSplit))
  rw [List.take_append_drop, List.take_append_drop] at h1
  refine h1.trans ?_
  refine (List.Perm.append (shuffle_perm _) (shuffle_perm _)).trans ?_
  exact List.filter_append_perm _ _

/-- C1: for every loaded dataset and every test fraction, the train and test
index lists produced by `prepareTensors` partition the full set of row
indices: their concatenation is a permutation of `range n`, so each row
index occurs exactly once across the two splits (disjointness and full
coverage). -/
theorem c1_split_is_partition (d : LoadedData) (testSplit : ℚ) (aug : AugConfig)
    (noise : Nat → ℚ) :
    ((prepareTensors d testSplit aug noise).split.testIdx
        ++ (prepareTensors d testSplit aug noise).split.trainIdx).Perm
      (List.range d.raw.length)
    ∧ ∀ i : Nat,
        ((prepareTensors d testSplit aug noise).split.testIdx
          ++ (prepareTensors d testSplit aug noise).split.trainIdx).count i
          = if i < d.raw.length then 1 else 0 := by
  have hsplit : (prepareTensors d testSplit aug noise).split
      = splitIndices (d.raw.map labelOf) testSplit := rfl
  have hperm := testIdx_trainIdx_perm (d.raw.map labelOf) testSplit
  rw [List.length_map] at hperm
  rw [hsplit]
  exact ⟨hperm, fun i => (hperm.count_eq i).trans (count_range_if d.raw.length i)⟩

/-! ### Test-set size accounting -/

theorem pos_neg_length (labels : List ℚ) :
    (posIdxOf labels).length + (negIdxOf labels).length = labels.length := by
  have h := (List.filter_append_perm (fun i => decide (labels.getD i 0 = 1))
    (List.range labels.length)).length_eq
  simpa [posIdxOf, negIdxOf] using h

theorem nTest_le (n : Nat) (t : ℚ) (hn : 1 ≤ n) : nTestOf n t ≤ n := by
  unfold nTestOf
  have hc : clampQ t (1 / 20) (9 / 10) ≤ 1 :=
    le_trans (min_le_right _ _) (by norm_num)
  have h1 : (n : ℚ) * clampQ t (1 / 20) (9 / 10) ≤ (n : ℚ) :=
    mul_le_of_le_one_right (by positivity) hc
  have h2 : ⌊(n : ℚ) * clampQ t (1 / 20) (9 / 10)⌋ ≤ (n : ℤ) := by
    have := Int.floor_le_floor h1
    rwa [Int.floor_natCast] at this
  exact max_le hn (Int.toNat_le.2 h2)

theorem testPos_le_pos (n p : Nat) (t : ℚ) : testPosOf n p t ≤ p := by
  unfold testPosOf
  generalize jsRound ((nTestOf n t : ℚ) * ((p : ℚ) / (max 1 n : ℚ))) = r
  omega

theorem jsRound_le_of_le (x : ℚ) (m : ℤ) (h : x ≤ (m : ℚ)) : jsRound x ≤ m := by
  unfold jsRound
  have h1 : ⌊x + 1 / 2⌋ ≤ ⌊(m : ℚ) + 1 / 2⌋ := Int.floor_le_floor (by linarith)
  have h2 : (⌊(m : ℚ) + 1 / 2⌋ : ℤ) = m := by
    rw [Int.floor_int_add]
    norm_num
  omega

theorem le_jsRound_of_le (x : ℚ) (m : ℤ) (h : (m : ℚ) ≤ x) : m ≤ jsRound x := by
  unfold jsRound
  exact Int.le_floor.2 (by linarith)

theorem testPos_le_nTest (n p : Nat) (t : ℚ) (hp : p ≤ n) :
    testPosOf n p t ≤ nTestOf n t := by
  unfold testPosOf
  have hx : (nTestOf n t : ℚ) * ((p : ℚ) / (max 1 (n : ℚ))) ≤ ((nTestOf n t : ℤ) : ℚ) := by
    push_cast
    apply mul_le_of_le_one_right (by positivity)
    apply div_le_one_of_le₀
    · exact_mod_cast le_trans hp (le_max_right 1 n)
    · positivity
  have hr := jsRound_le_of_le ((nTestOf n t : ℚ) * ((p : ℚ) / (max 1 (n : ℚ))))
    (nTestOf n t : ℤ) hx
  generalize jsRound ((nTestOf n t : ℚ) * ((p : ℚ) / (max 1 (n : ℚ)))) = r at hr ⊢
  omega

theorem nTest_sub_neg_le (n p q : Nat) (t : ℚ) (hn : 1 ≤ n) (hpq : p + q = n) :
    (nTestOf n t : ℤ) - (q : ℤ)
      ≤ max 0 (min (jsRound ((nTestOf n t : ℚ) * ((p : ℚ) / (max 1 (n : ℚ))))) (p : ℤ)) := by
  have hnT := nTest_le n t hn
  have hmax : (max 1 (n : ℚ)) = (n : ℚ) := by
    exact max_eq_right (by exact_mod_cast hn)
  have hxq : (((nTestOf n t : ℤ) - (q : ℤ) : ℤ) : ℚ)
      ≤ (nTestOf n t : ℚ) * ((p : ℚ) / (max 1 (n : ℚ))) := by
    rw [hmax, mul_div_assoc']
    rw [le_div_iff₀ (by exact_mod_cast (by omega : 0 < n) : (0 : ℚ) < n)]
    have hq : (q : ℚ) = (n : ℚ) - (p : ℚ) := by
      have h' : (p : ℚ) + (q : ℚ) = (n : ℚ) := by exact_mod_cast hpq
      linarith
    have hnTQ : (nTestOf n t : ℚ) ≤ (n : ℚ) := by exact_mod_cast hnT
    have hpQ : (p : ℚ) ≤ (n : ℚ) := by
      exact_mod_cast (by omega : p ≤ n)
    push_cast
    nlinarith [mul_nonneg (sub_nonneg.2 hnTQ) (sub_nonneg.2 hpQ)]
  have hr := le_jsRound_of_le ((nTestOf n t : ℚ) * ((p : ℚ) / (max 1 (n : ℚ))))
    ((nTestOf n t : ℤ) - (q : ℤ)) hxq
  have hp2 : (nTestOf n t : ℤ) - (q : ℤ) ≤ (p : ℤ) := by omega
  generalize jsRound ((nTestOf n t : ℚ) * ((p : ℚ) / (max 1 (n : ℚ)))) = r at hr ⊢
  omega

theorem testPos_add_testNeg (n p q : Nat) (t : ℚ) (hn : 1 ≤ n) (hpq : p + q = n) :
    testPosOf n p t + testNegOf n p q t = nTestOf n t ∧ testNegOf n p q t ≤ q := by
  have h1 := testPos_le_nTest n p t (by omega)
  have h2 := nTest_sub_neg_le n p q t hn hpq
  unfold testPosOf at h1 ⊢
  unfold testNegOf
  unfold testPosOf
  generalize jsRound ((nTestOf n t : ℚ) * ((p : ℚ) / (max 1 n : ℚ))) = r at h1 h2 ⊢
  omega

set_option maxRecDepth 10000 in
/-- C2 counterexample: on a 19-row dataset with requested test fraction
`0.05` (already inside the clamped range), the claimed total test-set size
`floor(N x fraction) = floor(0.95) = 0`, but the partitioner produces a
test set of size `1` (the source takes `Math.max(1, ...)` of the floor). -/
theorem c2_cx :
    (splitIndices (List.replicate 19 (0 : ℚ)) (1 / 20)).testIdx.length = 1
    ∧ (⌊((List.replicate 19 (0 : ℚ)).length : ℚ) * clampQ (1 / 20) (1 / 20) (9 / 10)⌋ : ℤ) = 0 := by
  with_unfolding_all decide

/-- C2 (amended): for every non-empty dataset the total test-set size equals
`max(1, floor(N x fraction))` with the fraction clamped to `[0.05, 0.9]`;
the positive-bucket allocation never over-draws either bucket, and the two
allocations sum to the total. -/
theorem c2_total_test_size (labels : List ℚ) (testSplit : ℚ) (h : 1 ≤ labels.length) :
    (splitIndices labels testSplit).testIdx.length = (splitIndices labels testSplit).nTest
    ∧ (splitIndices labels testSplit).nTest
        = max 1 (⌊(labels.length : ℚ) * clampQ testSplit (1 / 20) (9 / 10)⌋.toNat)
    ∧ (splitIndices labels testSplit).testPos ≤ (splitIndices labels testSplit).posIdx.length
    ∧ (splitIndices labels testSplit).testNeg ≤ (splitIndices labels testSplit).negIdx.length
    ∧ (splitIndices labels testSplit).testPos + (splitIndices labels testSplit).testNeg
        = (splitIndices labels testSplit).nTest := by
  have hpq := pos_neg_length labels
  have hsum := testPos_add_testNeg labels.length (posIdxOf labels).length
    (negIdxOf labels).length testSplit h hpq
  have htp := testPos_le_pos labels.length (posIdxOf labels).length testSplit
  simp only [splitIndices]
  refine ⟨?_, rfl, htp, hsum.2, hsum.1⟩
  rw [List.length_append, List.length_take, List.length_take,
    (shuffle_perm (posIdxOf labels)).length_eq, (shuffle_perm (negIdxOf labels)).length_eq,
    min_eq_left htp, min_eq_left hsum.2]
  exact hsum.1

/-- Witness for C2's amended theorem at a concrete 10-row dataset with three
positive labels and requested fraction `0.3`. -/
theorem c2_total_test_size_witness :
    1 ≤ ([1, 0, 0, 1, 0, 0, 0, 0, 0, 1] : List ℚ).length
    ∧ ((splitIndices [1, 0, 0, 1, 0, 0, 0, 0, 0, 1] (3 / 10)).testIdx.length
          = (splitIndices [1, 0, 0, 1, 0, 0, 0, 0, 0, 1] (3 / 10)).nTest
      ∧ (splitIndices [1, 0, 0, 1, 0, 0, 0, 0, 0, 1] (3 / 10)).nTest
          = max 1 (⌊(([1, 0, 0, 1, 0, 0, 0, 0, 0, 1] : List ℚ).length : ℚ)
              * clampQ (3 / 10) (1 / 20) (9 / 10)⌋.toNat)
      ∧ (splitIndices [1, 0, 0, 1, 0, 0, 0, 0, 0, 1] (3 / 10)).testPos
          ≤ (splitIndices [1, 0, 0, 1, 0, 0, 0, 0, 0, 1] (3 / 10)).posIdx.length
      ∧ (splitIndices [1, 0, 0, 1, 0, 0, 0, 0, 0, 1] (3 / 10)).testNeg
          ≤ (splitIndices [1, 0, 0, 1, 0, 0, 0, 0, 0, 1] (3 / 10)).negIdx.length
      ∧ (splitIndices [1, 0, 0, 1, 0, 0, 0, 0, 0, 1] (3 / 10)).testPos
            + (splitIndices [1, 0, 0, 1, 0, 0, 0, 0, 0, 1] (3 / 10)).testNeg
          = (splitIndices [1, 0, 0, 1, 0, 0, 0, 0, 0, 1] (3 / 10)).nTest) :=
  ⟨by decide, c2_total_test_size [1, 0, 0, 1, 0, 0, 0, 0, 0, 1] (3 / 10) (by decide)⟩

/-! ### Loading failures are exactly the schema errors -/

theorem filterMap_parseLine_length (headers : List String) (ls : List String) :
    (ls.filterMap (parseLine headers)).length
      = (ls.filter (fun l => decide ((splitChar ',' l.data).length = headers.length))).length := by
  induction ls with
  | nil => rfl
  | cons l t ih =>
    rw [List.filterMap_cons, List.filter_cons]
    by_cases h : (splitChar ',' l.data).length = headers.length
    · have hp : parseLine headers l
          = some (headers.zip ((splitChar ',' l.data).map (fun cs => jsTrim ⟨cs⟩))) := by
        simp [parseLine, h]
      rw [hp]
      simp [h, ih]
    · have hp : parseLine headers l = none := by
        simp [parseLine, h]
      rw [hp]
      simp [h, ih]

/-- C3: loading fails exactly when the label column `Attrition` is absent
from the (trimmed) header or fewer than one data line exists; a data line
whose field count differs from the header's is silently skipped (the loaded
row count equals the count of well-formed data lines) and never fails the
load. -/
theorem c3_load_fails_iff_schema_error (text : String) :
    ((fromFile text).isOk = true
        ↔ 2 ≤ (csvLines text).length ∧ labelKey ∈ headersOf text)
    ∧ ∀ d, fromFile text = .ok d →
        d.raw.length = ((csvLines text).tail.filter
          (fun l => decide ((splitChar ',' l.data).length = (headersOf text).length))).length := by
  unfold fromFile parseCSV headersOf
  cases h : csvLines text with
  | nil => simp [Except.isOk, Except.toBool]
  | cons hd tl =>
    cases tl with
    | nil => simp [Except.isOk, Except.toBool]
    | cons l2 tl2 =>
      by_cases hmem : labelKey ∈ (splitChar ',' hd.data).map (fun cs => jsTrim ⟨cs⟩)
      · constructor
        · simp [hmem, Except.isOk, Except.toBool]
        · intro d hd2
          simp only [hmem, if_pos, Except.ok.injEq] at hd2
          subst hd2
          simp only [List.tail_cons]
          simpa using filterMap_parseLine_length
            ((splitChar ',' hd.data).map (fun cs => jsTrim ⟨cs⟩)) (l2 :: tl2)
      · constructor
        · simp [hmem, Except.isOk, Except.toBool]
        · intro d hd2
          simp [hmem] at hd2

def exText3 : String := "Attrition,Age\nYes,41\nbad\nNo,30,extra"

/-- Witness for C3 at a file with one well-formed data line, one short line
and one long line: loading succeeds and keeps exactly one row. -/
theorem c3_witness :
    ((fromFile exText3).isOk = true
        ↔ 2 ≤ (csvLines exText3).length ∧ labelKey ∈ headersOf exText3)
    ∧ (⟨["Attrition", "Age"], [], [[("Attrition", "Yes"), ("Age", "41")]]⟩ : LoadedData).raw.length
        = ((csvLines exText3).tail.filter
            (fun l => decide ((splitChar ',' l.data).length = (headersOf exText3).length))).length :=
  ⟨(c3_load_fails_iff_schema_error exText3).1,
   (c3_load_fails_iff_schema_error exText3).2
     ⟨["Attrition", "Age"], [], [[("Attrition", "Yes"), ("Age", "41")]]⟩ (by rfl)⟩

/-! ### Determinism of preparation -/

/-- C6: preparing the same loaded dataset twice with the same configuration
yields identical split indices and identical scaler statistics.  In the
embedding the only impurity of `prepareTensors` is the `Math.random` stream
feeding the augmenter's Gaussian draws, so determinism of split and scaler
is their independence from that stream: the bucket shuffle draws nothing
from it, using instead the linear-congruential generator re-seeded with the
constant `1337` inside `shuffle` on every call. -/
theorem c6_preparation_deterministic (d : LoadedData) (testSplit : ℚ) (aug : AugConfig)
    (noise1 noise2 : Nat → ℚ) :
    (prepareTensors d testSplit aug noise1).split = (prepareTensors d testSplit aug noise2).split
    ∧ (prepareTensors d testSplit aug noise1).scaler
        = (prepareTensors d testSplit aug noise2).scaler :=
  ⟨rfl, rfl⟩

/-! ### Feature vector length -/

theorem oneHotBlock_length (enc : List String) (v : String) :
    (oneHotBlock enc v).length = enc.length := by
  unfold oneHotBlock
  cases h : enc.indexOf? v <;> simp

theorem engineeredFeatures_length (r : Row) : (engineeredFeatures r).length = 7 := by
  simp [engineeredFeatures]

/-- C7: every row of a prepared dataset is featurized to a vector of length
`|baseNumerics| (23) + |engineered| (7) + Σ one-hot block sizes`; the length
does not depend on the row, and it equals the length of the recorded
`featureOrder` list. -/
theorem c7_feature_vector_length (rows : List Row) (catCols : List String) (r : Row) :
    (rowToFeatures rows catCols r).length
        = baseNum.length + engineeredNames.length
          + (catCols.map (fun c => (encoderFor rows c).length)).sum
    ∧ baseNum.length = 23
    ∧ engineeredNames.length = 7
    ∧ (rowToFeatures rows catCols r).length = (featureOrderOf rows catCols).length := by
  have h1 : (rowToFeatures rows catCols r).length
      = baseNum.length + engineeredNames.length
        + (catCols.map (fun c => (encoderFor rows c).length)).sum := by
    unfold rowToFeatures
    simp [List.length_flatten, List.map_map, Function.comp_def, oneHotBlock_length,
      engineeredFeatures_length, engineeredNames, Nat.add_assoc]
  have h2 : (featureOrderOf rows catCols).length
      = baseNum.length + engineeredNames.length
        + (catCols.map (fun c => (encoderFor rows c).length)).sum := by
    unfold featureOrderOf
    simp [List.length_flatten, List.map_map, Function.comp_def, Nat.add_assoc]
  exact ⟨h1, rfl, rfl, h1.trans h2.symm⟩

/-! ### One-hot blocks built during preparation always have exactly one 1 -/

theorem findIdx?_of_mem {v : String} :
    ∀ (l : List String) (s : Nat), v ∈ l →
      ∃ i, List.findIdx? (· == v) l s = some i ∧ i < s + l.length := by
  intro l
  induction l with
  | nil => intro s h; simp at h
  | cons x xs ih =>
    intro s h
    by_cases hx : x = v
    · refine ⟨s, ?_, by simp⟩
      simp [List.findIdx?, hx]
    · have hmem : v ∈ xs := by
        rcases List.mem_cons.1 h with h' | h'
        · exact absurd h'.symm hx
        · exact h'
      obtain ⟨i, hi, hlt⟩ := ih (s + 1) hmem
      refine ⟨i, ?_, by simp; omega⟩
      simpa [List.findIdx?, hx] using hi

theorem indexOf?_of_mem {v : String} {l : List String} (h : v ∈ l) :
    ∃ i, l.indexOf? v = some i ∧ i < l.length := by
  obtain ⟨i, hi, hlt⟩ := findIdx?_of_mem l 0 h
  exact ⟨i, hi, by omega⟩

theorem count_one_set_replicate : ∀ (n i : Nat), i < n →
    (((List.replicate n (0 : ℚ)).set i 1).count 1 = 1) := by
  intro n
  induction n with
  | zero => intro i h; omega
  | succ n ih =>
    intro i h
    cases i with
    | zero =>
      simp [List.replicate_succ, List.count_cons, List.count_replicate]
    | succ i =>
      simp only [List.replicate_succ, List.set_cons_succ, List.count_cons]
      rw [ih i (by omega)]
      simp

theorem mem_encoderFor {rows : List Row} {c : String} {r : Row} (hr : r ∈ rows) :
    (rowGet r c).getD "" ∈ encoderFor rows c := by
  unfold encoderFor
  rw [List.mem_mergeSort, List.mem_dedup]
  exact List.mem_map.2 ⟨r, hr, rfl⟩

/-- C9: within one `prepareTensors` call the encoders are fitted on exactly
the rows being featurized and a missing value is read as `''`, which itself
receives an index; hence every row's one-hot block for every categorical
column contains exactly one entry equal to `1`, every other entry is `0`,
and the all-zero unseen-value block never occurs during preparation. -/
theorem c9_onehot_exactly_one (rows : List Row) (c : String) (r : Row) (hr : r ∈ rows) :
    (oneHotBlock (encoderFor rows c) ((rowGet r c).getD "")).count 1 = 1
    ∧ ∀ x ∈ oneHotBlock (encoderFor rows c) ((rowGet r c).getD ""), x = 0 ∨ x = 1 := by
  obtain ⟨i, hi, hlt⟩ := indexOf?_of_mem (mem_encoderFor hr (c := c))
  constructor
  · unfold oneHotBlock
    rw [hi]
    exact count_one_set_replicate _ i (by simpa using hlt)
  · intro x hx
    unfold oneHotBlock at hx
    rw [hi] at hx
    rcases List.mem_or_eq_of_mem_set hx with h' | h'
    · exact Or.inl (List.eq_of_mem_replicate h')
    · exact Or.inr h'

/-- Witness for C9 on a two-row dataset, one row lacking the column. -/
theorem c9_witness :
    ([("OverTime", "Yes")] : Row) ∈ ([[("OverTime", "Yes")], []] : List Row)
    ∧ ((oneHotBlock (encoderFor [[("OverTime", "Yes")], []] "OverTime")
          ((rowGet [("OverTime", "Yes")] "OverTime").getD "")).count 1 = 1
      ∧ ∀ x ∈ oneHotBlock (encoderFor [[("OverTime", "Yes")], []] "OverTime")
            ((rowGet [("OverTime", "Yes")] "OverTime").getD ""), x = 0 ∨ x = 1) :=
  ⟨by simp,
   c9_onehot_exactly_one [[("OverTime", "Yes")], []] "OverTime" [("OverTime", "Yes")] (by simp)⟩

/-! ### Augmentation frame properties -/

def zeroNoise : Nat → ℚ := fun _ => 0

theorem map_const_replicate (n : Nat) :
    (List.range n).map (fun _ => ([(1 : ℚ)])) = List.replicate n [(1 : ℚ)] := by
  induction n with
  | zero => rfl
  | succ n ih =>
    rw [List.range_succ, List.map_append, ih]
    simp only [List.map_cons, List.map_nil]
    rw [← List.replicate_succ']

/-- C8: augmentation never alters or removes the original scaled training
rows or labels — they remain an unchanged prefix of the output, with only
synthetic label-`1` rows appended after them; when the positive count
already meets `wantPos = floor(targetRatio x N / (1 - targetRatio))` it is a
no-op; and the test partition returned by `prepareTensors` is unaffected by
the augmentation configuration and its randomness. -/
theorem c8_augment_frame (xtr ytr : List (List ℚ)) (numDim : Nat)
    (targetRatio noiseStd : ℚ) (noise : Nat → ℚ)
    (d : LoadedData) (testSplit : ℚ) (a1 a2 : AugConfig) (n1 n2 : Nat → ℚ) :
    (∃ synth, (augmentPositivesOnScaled xtr ytr numDim targetRatio noiseStd noise).1
          = xtr ++ synth
        ∧ (augmentPositivesOnScaled xtr ytr numDim targetRatio noiseStd noise).2
          = ytr ++ List.replicate synth.length [(1 : ℚ)])
    ∧ (wantPosOf targetRatio (negIdxY ytr).length ≤ ((posIdxY ytr).length : ℤ) →
        augmentPositivesOnScaled xtr ytr numDim targetRatio noiseStd noise = (xtr, ytr))
    ∧ (prepareTensors d testSplit a1 n1).xTest = (prepareTensors d testSplit a2 n2).xTest
    ∧ (prepareTensors d testSplit a1 n1).yTest = (prepareTensors d testSplit a2 n2).yTest := by
  refine ⟨?_, ?_, rfl, rfl⟩
  · unfold augmentPositivesOnScaled
    by_cases hp : (posIdxY ytr).length = 0
    · exact ⟨[], by simp [hp], by simp [hp]⟩
    · by_cases hneed :
        (max 0 (wantPosOf targetRatio (negIdxY ytr).length - ((posIdxY ytr).length : ℤ))).toNat = 0
      · exact ⟨[], by simp [hp, hneed], by simp [hp, hneed]⟩
      · simp only [hp, hneed, if_false]
        refine ⟨_, rfl, ?_⟩
        simp [map_const_replicate]
  · intro hw
    unfold augmentPositivesOnScaled
    by_cases hp : (posIdxY ytr).length = 0
    · simp [hp]
    · have hneed :
          (max 0 (wantPosOf targetRatio (negIdxY ytr).length - ((posIdxY ytr).length : ℤ))).toNat
            = 0 := by omega
      simp [hp, hneed]

/-- Witness for C8's no-op hypothesis: one positive training row and no
negatives, so `wantPos = 0 ≤ 1` and augmentation returns its input. -/
theorem c8_witness :
    wantPosOf (1 / 5) (negIdxY [[(1 : ℚ)]]).length ≤ ((posIdxY [[(1 : ℚ)]]).length : ℤ)
    ∧ augmentPositivesOnScaled [[0]] [[(1 : ℚ)]] 30 (1 / 5) (1 / 20) zeroNoise
        = ([[0]], [[(1 : ℚ)]]) :=
  ⟨by with_unfolding_all decide,
   (c8_augment_frame [[0]] [[(1 : ℚ)]] 30 (1 / 5) (1 / 20) zeroNoise
      ⟨[], [], []⟩ (1 / 5) ⟨false, 0, 0⟩ ⟨false, 0, 0⟩ zeroNoise zeroNoise).2.1
     (by with_unfolding_all decide)⟩

/-- C10: when the training partition has no positive rows the augmenter
returns the training matrix and labels unchanged — the `P === 0` guard keeps
the cyclic index `k % P` and the synthesis loop from ever running. -/
theorem c10_augment_no_positives (xtr ytr : List (List ℚ)) (numDim : Nat)
    (targetRatio noiseStd : ℚ) (noise : Nat → ℚ)
    (h : (posIdxY ytr).length = 0) :
    augmentPositivesOnScaled xtr ytr numDim targetRatio noiseStd noise = (xtr, ytr) := by
  unfold augmentPositivesOnScaled
  simp [h]

/-- Witness for C10 on an all-negative training partition. -/
theorem c10_witness :
    (posIdxY [[(0 : ℚ)]]).length = 0
    ∧ augmentPositivesOnScaled [[2]] [[(0 : ℚ)]] 30 (1 / 2) (1 / 20) zeroNoise
        = ([[2]], [[(0 : ℚ)]]) :=
  ⟨by with_unfolding_all decide,
   c10_augment_no_positives [[2]] [[(0 : ℚ)]] 30 (1 / 2) (1 / 20) zeroNoise
     (by with_unfolding_all decide)⟩

/-! ### Early-stopping invariants of the training loop -/

theorem fitLoop_cons_improve (patience : Nat) (l vl : ℚ) (rest : List (ℚ × ℚ))
    (best : Option ℚ) (bad : Nat) (h : improves vl best = true) :
    fitLoop patience ((l, vl) :: rest) best bad
      = { loss := l :: (fitLoop patience rest (some vl) 0).loss,
          valLoss := vl :: (fitLoop patience rest (some vl) 0).valLoss,
          improved := true :: (fitLoop patience rest (some vl) 0).improved } := by
  simp only [fitLoop, h, if_true]

theorem fitLoop_cons_stop (patience : Nat) (l vl : ℚ) (rest : List (ℚ × ℚ))
    (best : Option ℚ) (bad : Nat) (h : improves vl best = false)
    (h2 : max 2 patience ≤ bad + 1) :
    fitLoop patience ((l, vl) :: rest) best bad
      = { loss := [l], valLoss := [vl], improved := [false] } := by
  simp only [fitLoop, h, Bool.false_eq_true, if_false, h2, if_true]

theorem fitLoop_cons_continue (patience : Nat) (l vl : ℚ) (rest : List (ℚ × ℚ))
    (best : Option ℚ) (bad : Nat) (h : improves vl best = false)
    (h2 : ¬ max 2 patience ≤ bad + 1) :
    fitLoop patience ((l, vl) :: rest) best bad
      = { loss := l :: (fitLoop patience rest best (bad + 1)).loss,
          valLoss := vl :: (fitLoop patience rest best (bad + 1)).valLoss,
          improved := false :: (fitLoop patience rest best (bad + 1)).improved } := by
  simp only [fitLoop, h, Bool.false_eq_true, if_false, h2]

theorem fitLoop_loss_shape (patience : Nat) :
    ∀ (data : List (ℚ × ℚ)) (best : Option ℚ) (bad : Nat),
      (fitLoop patience data best bad).loss
          = (data.take (fitLoop patience data best bad).loss.length).map Prod.fst
      ∧ (fitLoop patience data best bad).loss.length
          = (fitLoop patience data best bad).improved.length
      ∧ (fitLoop patience data best bad).loss.length ≤ data.length := by
  intro data
  induction data with
  | nil => intro best bad; exact ⟨rfl, rfl, Nat.le_refl 0⟩
  | cons hd rest ih =>
    intro best bad
    obtain ⟨l, vl⟩ := hd
    cases h : improves vl best with
    | true =>
      rw [fitLoop_cons_improve patience l vl rest best bad h]
      obtain ⟨ih1, ih2, ih3⟩ := ih (some vl) 0
      refine ⟨?_, by simpa using ih2, by simpa using ih3⟩
      simp only [List.length_cons, List.take_succ_cons, List.map_cons]
      rw [← ih1]
    | false =>
      by_cases h2 : max 2 patience ≤ bad + 1
      · rw [fitLoop_cons_stop patience l vl rest best bad h h2]
        exact ⟨rfl, rfl, by simp⟩
      · rw [fitLoop_cons_continue patience l vl rest best bad h h2]
        obtain ⟨ih1, ih2, ih3⟩ := ih best (bad + 1)
        refine ⟨?_, by simpa using ih2, by simpa using ih3⟩
        simp only [List.length_cons, List.take_succ_cons, List.map_cons]
        rw [← ih1]

theorem fitLoop_no_long_streak (patience : Nat) :
    ∀ (data : List (ℚ × ℚ)) (best : Option ℚ) (bad : Nat), bad < max 2 patience →
      ∀ j k, ((fitLoop patience data best bad).improved.drop j).take k
            = List.replicate k false →
        (j = 0 → bad + k ≤ max 2 patience) ∧ k ≤ max 2 patience := by
  intro data
  induction data with
  | nil =>
    intro best bad hbad j k hk
    simp only [fitLoop] at hk
    have hk0 : k = 0 := by
      have hlen := congrArg List.length hk
      simp at hlen
      omega
    subst hk0
    exact ⟨fun _ => by omega, by omega⟩
  | cons hd rest ih =>
    intro best bad hbad j k hk
    obtain ⟨l, vl⟩ := hd
    cases h : improves vl best with
    | true =>
      rw [fitLoop_cons_improve patience l vl rest best bad h] at hk
      cases j with
      | zero =>
        cases k with
        | zero => exact ⟨fun _ => by omega, by omega⟩
        | succ k =>
          rw [List.drop_zero, List.take_succ_cons, List.replicate_succ] at hk
          exact absurd (List.cons_eq_cons.1 hk).1 (by simp)
      | succ j =>
        have := (ih (some vl) 0 (by omega) j k (by simpa using hk)).2
        exact ⟨fun hj => by omega, this⟩
    | false =>
      by_cases h2 : max 2 patience ≤ bad + 1
      · rw [fitLoop_cons_stop patience l vl rest best bad h h2] at hk
        cases j with
        | zero =>
          have hlen := congrArg List.length hk
          simp at hlen
          constructor
          · intro _
            omega
          · omega
        | succ j =>
          have hk0 : k = 0 := by
            have := congrArg List.length hk
            simp at this
            omega
          subst hk0
          exact ⟨fun _ => by omega, by omega⟩
      · rw [fitLoop_cons_continue patience l vl rest best bad h h2] at hk
        cases j with
        | zero =>
          cases k with
          | zero => exact ⟨fun _ => by omega, by omega⟩
          | succ k =>
            rw [List.drop_zero, List.take_succ_cons, List.replicate_succ] at hk
            have htail := (List.cons_eq_cons.1 hk).2
            have := (ih best (bad + 1) (by omega) 0 k (by simpa using htail)).1 rfl
            exact ⟨fun _ => by omega, by omega⟩
        | succ j =>
          have := (ih best (bad + 1) (by omega) j k (by simpa using hk)).2
          exact ⟨fun hj => by simp at hj, this⟩

theorem fitLoop_stop_tail (patience : Nat) :
    ∀ (data : List (ℚ × ℚ)) (best : Option ℚ) (bad : Nat), bad < max 2 patience →
      (fitLoop patience data best bad).loss.length < data.length →
      (((fitLoop patience data best bad).improved
            = List.replicate (fitLoop patience data best bad).improved.length false
          ∧ bad + (fitLoop patience data best bad).improved.length = max 2 patience)
        ∨ ∃ pre, (fitLoop patience data best bad).improved
            = pre ++ List.replicate (max 2 patience) false) := by
  intro data
  induction data with
  | nil =>
    intro best bad _ hlt
    simp [fitLoop] at hlt
  | cons hd rest ih =>
    intro best bad hbad hlt
    obtain ⟨l, vl⟩ := hd
    cases h : improves vl best with
    | true =>
      rw [fitLoop_cons_improve patience l vl rest best bad h] at hlt ⊢
      simp only [List.length_cons, List.length_cons, Nat.add_lt_add_iff_right] at hlt
      have hlt' : (fitLoop patience rest (some vl) 0).loss.length < rest.length := by
        simpa using hlt
      rcases ih (some vl) 0 (by omega) hlt' with ⟨heq, hlen⟩ | ⟨pre, hpre⟩
      · right
        refine ⟨[true], ?_⟩
        simp only [List.cons_append, List.nil_append]
        rw [heq]
        simp at hlen
        rw [hlen]
      · right
        exact ⟨true :: pre, by rw [hpre]; rfl⟩
    | false =>
      by_cases h2 : max 2 patience ≤ bad + 1
      · rw [fitLoop_cons_stop patience l vl rest best bad h h2]
        left
        constructor
        · rfl
        · simp
          omega
      · rw [fitLoop_cons_continue patience l vl rest best bad h h2] at hlt ⊢
        have hlt' : (fitLoop patience rest best (bad + 1)).loss.length < rest.length := by
          simpa using hlt
        rcases ih best (bad + 1) (by omega) hlt' with ⟨heq, hlen⟩ | ⟨pre, hpre⟩
        · left
          refine ⟨?_, ?_⟩
          · rw [List.length_cons, List.replicate_succ]
            exact congrArg (false :: ·) heq
          · simp only [List.length_cons]
            omega
        · right
          exact ⟨false :: pre, by rw [hpre]; rfl⟩

/-- C4: with all epoch validation losses present and `patience >= 2` (the
configuration surface guarantees this; the source widens smaller values via
`Math.max(2, patience)`), the training loop records exactly one training
loss per epoch actually run, runs at most the epoch budget, never executes
more than `patience` consecutive non-improving epochs past the running best
(improvement tested as `val_loss + 1e-6 < best`), and when it stops before
the budget the trace ends with exactly `patience` consecutive
non-improvements. -/
theorem c4_early_stopping (patience : Nat) (data : List (ℚ × ℚ)) (hp : 2 ≤ patience) :
    (fitHistory patience data).loss
        = (data.take (fitHistory patience data).loss.length).map Prod.fst
    ∧ (fitHistory patience data).loss.length = (fitHistory patience data).improved.length
    ∧ (fitHistory patience data).loss.length ≤ data.length
    ∧ (∀ j k, ((fitHistory patience data).improved.drop j).take k = List.replicate k false →
          k ≤ patience)
    ∧ ((fitHistory patience data).loss.length < data.length →
          ∃ pre, (fitHistory patience data).improved = pre ++ List.replicate patience false) := by
  have hmax : max 2 patience = patience := by omega
  simp only [fitHistory]
  obtain ⟨h1, h2, h3⟩ := fitLoop_loss_shape patience data none 0
  refine ⟨h1, h2, h3, ?_, ?_⟩
  · intro j k hk
    have := (fitLoop_no_long_streak patience data none 0 (by omega) j k hk).2
    omega
  · intro hlt
    rcases fitLoop_stop_tail patience data none 0 (by omega) hlt with ⟨heq, hlen⟩ | ⟨pre, hpre⟩
    · refine ⟨[], ?_⟩
      rw [List.nil_append, heq]
      congr 1
      omega
    · exact ⟨pre, by rwa [hmax] at hpre⟩

/-- Witness for C4 with `patience = 2` on three epochs whose validation loss
improves once and then stalls, so training stops at epoch 3. -/
theorem c4_witness :
    2 ≤ 2
    ∧ ((fitHistory 2 [(1, 5), (9 / 10, 5), (4 / 5, 5)]).loss
          = (([(1, 5), (9 / 10, 5), (4 / 5, 5)] : List (ℚ × ℚ)).take
              (fitHistory 2 [(1, 5), (9 / 10, 5), (4 / 5, 5)]).loss.length).map Prod.fst
      ∧ (fitHistory 2 [(1, 5), (9 / 10, 5), (4 / 5, 5)]).loss.length
          = (fitHistory 2 [(1, 5), (9 / 10, 5), (4 / 5, 5)]).improved.length
      ∧ (fitHistory 2 [(1, 5), (9 / 10, 5), (4 / 5, 5)]).loss.length
          ≤ ([(1, 5), (9 / 10, 5), (4 / 5, 5)] : List (ℚ × ℚ)).length
      ∧ (∀ j k, ((fitHistory 2 [(1, 5), (9 / 10, 5), (4 / 5, 5)]).improved.drop j).take k
              = List.replicate k false → k ≤ 2)
      ∧ ((fitHistory 2 [(1, 5), (9 / 10, 5), (4 / 5, 5)]).loss.length
              < ([(1, 5), (9 / 10, 5), (4 / 5, 5)] : List (ℚ × ℚ)).length →
            ∃ pre, (fitHistory 2 [(1, 5), (9 / 10, 5), (4 / 5, 5)]).improved
              = pre ++ List.replicate 2 false)) :=
  ⟨by decide, c4_early_stopping 2 [(1, 5), (9 / 10, 5), (4 / 5, 5)] (by decide)⟩

/-! ### Threshold scan: grid contents and first-strict-argmax behaviour -/

set_option maxRecDepth 100000 in
theorem thresholdCandidates_grid :
    thresholdCandidates.length = 80
    ∧ thresholdCandidates.map toFixed2
        = (List.range 80).map (fun k => ((10 + k : ℕ) : ℚ) / 100)
    ∧ thresholdCandidates.all (fun t => decide (t < 9 / 10)) = true := by
  with_unfolding_all decide

theorem bestThreshold_foldl (p y : List ℚ) :
    ∀ (cs : List ℚ) (b : ThrBest),
      (cs.foldl (bestStep p y) b).f1 = (cs.map (f1Of p y)).foldl max b.f1
      ∧ (cs.foldl (bestStep p y) b = b
        ∨ (b.f1 < (cs.foldl (bestStep p y) b).f1
          ∧ ∃ k, k < cs.length
              ∧ f1Of p y (cs.getD k 0) = (cs.foldl (bestStep p y) b).f1
              ∧ (cs.foldl (bestStep p y) b).thr = toFixed2 (cs.getD k 0)
              ∧ ∀ m, m < k → f1Of p y (cs.getD m 0) < (cs.foldl (bestStep p y) b).f1)) := by
  intro cs
  induction cs with
  | nil => intro b; exact ⟨rfl, Or.inl rfl⟩
  | cons t cs ih =>
    intro b
    by_cases h : b.f1 < f1Of p y t
    · have hstep : bestStep p y b t = { thr := toFixed2 t, f1 := f1Of p y t } := by
        unfold bestStep
        rw [if_pos h]
      rw [List.foldl_cons, hstep]
      obtain ⟨ihA, ihB⟩ := ih { thr := toFixed2 t, f1 := f1Of p y t }
      constructor
      · rw [ihA]
        simp only [List.map_cons, List.foldl_cons]
        congr 1
        exact (max_eq_right (le_of_lt h)).symm
      · right
        rcases ihB with hEq | ⟨hlt, k, hk, hf, hthr, hmin⟩
        · rw [hEq]
          exact ⟨h, 0, by simp, by simp, by simp, fun m hm => absurd hm (by omega)⟩
        · refine ⟨lt_trans h hlt, k + 1, by simpa using hk, ?_, ?_, ?_⟩
          · simpa using hf
          · simpa using hthr
          · intro m hm
            cases m with
            | zero => simpa using hlt
            | succ m => simpa using hmin m (by omega)
    · have hstep : bestStep p y b t = b := by
        unfold bestStep
        rw [if_neg h]
      rw [List.foldl_cons, hstep]
      obtain ⟨ihA, ihB⟩ := ih b
      constructor
      · rw [ihA]
        simp only [List.map_cons, List.foldl_cons]
        congr 1
        exact (max_eq_left (not_lt.1 h)).symm
      · rcases ihB with hEq | ⟨hlt, k, hk, hf, hthr, hmin⟩
        · exact Or.inl hEq
        · right
          refine ⟨hlt, k + 1, by simpa using hk, ?_, ?_, ?_⟩
          · simpa using hf
          · simpa using hthr
          · intro m hm
            cases m with
            | zero =>
              simp only [List.getD_cons_zero]
              exact lt_of_le_of_lt (not_lt.1 h) hlt
            | succ m => simpa using hmin m (by omega)

/-- C5 counterexample: the scan variable is an IEEE-754 double, and the
accumulated rounding error of `t += 0.01` drives `t` above the bound before
the 81st iteration: the loop visits exactly 80 candidates, all strictly
below `0.90`, so the claimed "81 candidates including 0.90 itself" is false. -/
theorem c5_cx :
    thresholdCandidates.length = 80
    ∧ thresholdCandidates.all (fun t => decide (t < 9 / 10)) = true :=
  ⟨thresholdCandidates_grid.1, thresholdCandidates_grid.2.2⟩

/-- C5 (amended): the optimizer scans 80 candidate thresholds — `0.10` then
79 float increments of `0.01`, rounding to `0.10 ... 0.89` at two decimals;
floating-point accumulation excludes `0.90`.  A candidate is kept only when
its F1 strictly exceeds the best so far, so the returned F1 is the maximum
over the scanned grid (0 if none is positive, with the default `0.5`
returned as threshold), and the returned threshold is the first candidate
attaining that maximum, rounded to two decimals. -/
theorem c5_threshold_scan (p y : List ℚ) :
    thresholdCandidates.length = 80
    ∧ thresholdCandidates.map toFixed2
        = (List.range 80).map (fun k => ((10 + k : ℕ) : ℚ) / 100)
    ∧ (bestThreshold p y).f1 = (thresholdCandidates.map (f1Of p y)).foldl max 0
    ∧ (bestThreshold p y = { thr := 1 / 2, f1 := 0 }
      ∨ ∃ k, k < thresholdCandidates.length
          ∧ f1Of p y (thresholdCandidates.getD k 0) = (bestThreshold p y).f1
          ∧ (bestThreshold p y).thr = toFixed2 (thresholdCandidates.getD k 0)
          ∧ (0 : ℚ) < (bestThreshold p y).f1
          ∧ ∀ m, m < k →
              f1Of p y (thresholdCandidates.getD m 0) < (bestThreshold p y).f1) := by
  obtain ⟨hA, hB⟩ := bestThreshold_foldl p y thresholdCandidates { thr := 1 / 2, f1 := 0 }
  refine ⟨thresholdCandidates_grid.1, thresholdCandidates_grid.2.1, hA, ?_⟩
  rcases hB with hEq | ⟨hlt, k, hk, hf, hthr, hmin⟩
  · exact Or.inl hEq
  · exact Or.inr ⟨k, hk, hf, hthr, hlt, hmin⟩

end Attrition
